import Mathlib

/-!
Verification of the stage-completion estimation, idle-time and quality
aggregation core of the Seismos KPI application (files `Seismos_KPI_v1.py`
and `Seismos_Viewer_v1.py`).

Timestamps are modelled as rational numbers of seconds since the epoch
(pandas timestamps are integer nanoseconds; every arithmetic operation the
code performs — subtraction, `total_seconds()/3600`, adding a
`timedelta(hours=h)` — is exact rational arithmetic).  The permissive
timestamp parser `pd.to_datetime(·, errors="coerce")` is modelled as an
abstract function `String → Option ℚ` (`none` = `NaT`).
-/

namespace Seismos

/-- One raw uploaded row, after the `KPI` sheet is parsed: the two timestamp
columns are still unparsed strings (`kpi_df` before the `pd.to_datetime`
coercion in `Seismos_KPI_v1.py` lines 72–73). -/
structure RawRow where
  wellName : String
  stage : Int
  startStr : String
  endStr : String
deriving DecidableEq, Repr

/-- One normalized stage row: both timestamps parsed (a row of `kpi_df`
after the `dropna(subset=["Start time", "End time"])` of line 74). -/
structure StageRecord where
  wellName : String
  stage : Int
  startTime : ℚ
  endTime : ℚ
deriving DecidableEq, Repr

/-- Parse-and-drop step: `pd.to_datetime(col, errors="coerce")` followed by
`dropna(subset=["Start time", "End time"])`: parse both timestamp fields;
a row in which either coercion yields `NaT` is dropped whole
(`Seismos_KPI_v1.py` lines 72–74, identically `Seismos_Viewer_v1.py`
lines 45–47). -/
def normalize (parse : String → Option ℚ) (rows : List RawRow) : List StageRecord :=
  rows.filterMap fun r =>
    match parse r.startStr, parse r.endStr with
    | some s, some e => some ⟨r.wellName, r.stage, s, e⟩
    | _, _ => none

/-- Both timestamp fields of a raw row parse. -/
def bothParse (parse : String → Option ℚ) (r : RawRow) : Bool :=
  (parse r.startStr).isSome && (parse r.endStr).isSome

/-- The stage record a raw row yields when both of its timestamps parse. -/
def toRecord (parse : String → Option ℚ) (r : RawRow) : StageRecord :=
  ⟨r.wellName, r.stage, (parse r.startStr).getD 0, (parse r.endStr).getD 0⟩

/-- Duration column: `kpi_df["Duration (hrs)"] = (End time - Start time).dt.total_seconds() / 3600`
(`Seismos_KPI_v1.py` line 95). -/
def durationHours (r : StageRecord) : ℚ :=
  (r.endTime - r.startTime) / 3600

/-- The rows of one group of `kpi_df.groupby("Well Name")`: the records whose
`Well Name` equals `w`, in original row order (pandas grouping is stable). -/
def wellRecords (kpi : List StageRecord) (w : String) : List StageRecord :=
  kpi.filter fun r => r.wellName == w

/-- Mean stage duration: `group["Duration (hrs)"].mean()` (`Seismos_KPI_v1.py` line 105). -/
def avgDuration (g : List StageRecord) : ℚ :=
  (g.map durationHours).sum / g.length

/-- Maximum of a list of rationals, `none` on the empty list (`max` of a
pandas column / Python `max(...)`, which raises on an empty input). -/
def listMax : List ℚ → Option ℚ
  | [] => none
  | x :: xs => some (xs.foldl max x)

/-- Latest end time: `group["End time"].max()` (`Seismos_KPI_v1.py` line 106). -/
def lastEnd (g : List StageRecord) : ℚ :=
  (listMax (g.map (·.endTime))).getD 0

/-- Completion estimate: `est_end = last_end + timedelta(hours=(stages_remaining * avg_duration))`
(`Seismos_KPI_v1.py` lines 104–107), `none` when the well has no records
(pandas only produces non-empty groups, so the code never divides by zero). -/
def estEnd (target : Int) (g : List StageRecord) : Option ℚ :=
  match g with
  | [] => none
  | _ :: _ => some (lastEnd g + ((target : ℚ) - (g.length : ℚ)) * avgDuration g * 3600)

/-- Lexicographic order on character lists, comparing code points — the
order Python `sorted` uses on strings. -/
def lexLe : List Char → List Char → Bool
  | [], _ => true
  | _ :: _, [] => false
  | a :: as, b :: bs =>
    if a.toNat < b.toNat then true
    else if b.toNat < a.toNat then false
    else lexLe as bs

/-- Lexicographic (code-point) order on strings. -/
def strLe (a b : String) : Bool := lexLe a.data b.data

/-- Relation form of `strLe`, for use with `List.insertionSort`. -/
def strLeP (a b : String) : Prop := strLe a b = true

instance : DecidableRel strLeP :=
  fun a b => inferInstanceAs (Decidable (strLe a b = true))

instance : IsTotal String strLeP :=
  ⟨fun a b => by
    suffices key : ∀ as bs : List Char, lexLe as bs = true ∨ lexLe bs as = true from
      key a.data b.data
    intro as
    induction as with
    | nil => exact fun _ => Or.inl rfl
    | cons x xs ih =>
      intro bs
      cases bs with
      | nil => exact Or.inr rfl
      | cons y ys =>
        simp only [lexLe]
        rcases Nat.lt_trichotomy x.toNat y.toNat with h | h | h
        · exact Or.inl (by simp [h])
        · simpa [h, lt_self_iff_false] using ih ys
        · exact Or.inr (by simp [h, show ¬ x.toNat < y.toNat by omega])⟩

instance : IsTrans String strLeP :=
  ⟨fun a b c h1 h2 => by
    suffices key : ∀ as bs cs : List Char,
        lexLe as bs = true → lexLe bs cs = true → lexLe as cs = true from
      key a.data b.data c.data h1 h2
    intro as
    induction as with
    | nil => exact fun _ _ _ _ => rfl
    | cons x xs ih =>
      intro bs cs h1 h2
      cases bs with
      | nil => simp [lexLe] at h1
      | cons y ys =>
        cases cs with
        | nil => simp [lexLe] at h2
        | cons z zs =>
          simp only [lexLe] at h1 h2 ⊢
          rcases Nat.lt_trichotomy x.toNat y.toNat with hxy | hxy | hxy
          · rcases Nat.lt_trichotomy y.toNat z.toNat with hyz | hyz | hyz
            · simp [show x.toNat < z.toNat by omega]
            · simp [show x.toNat < z.toNat by omega]
            · simp [show ¬ y.toNat < z.toNat by omega, hyz] at h2
          · rcases Nat.lt_trichotomy y.toNat z.toNat with hyz | hyz | hyz
            · simp [show x.toNat < z.toNat by omega]
            · simp [show ¬ x.toNat < y.toNat by omega,
                show ¬ y.toNat < x.toNat by omega] at h1
              simp [show ¬ y.toNat < z.toNat by omega,
                show ¬ z.toNat < y.toNat by omega] at h2
              simp [show ¬ x.toNat < z.toNat by omega,
                show ¬ z.toNat < x.toNat by omega]
              exact ih ys zs h1 h2
            · simp [show ¬ y.toNat < z.toNat by omega, hyz] at h2
          · simp [show ¬ x.toNat < y.toNat by omega, hxy] at h1⟩

/-- Python `sorted` on a list of strings. -/
def sortStrings (l : List String) : List String := List.insertionSort strLeP l

/-- Python substring test `a in b`. -/
def isSub (a b : String) : Bool :=
  go a.data b.data
where
  go (a : List Char) : List Char → Bool
    | [] => a.isEmpty
    | b :: bs => a.isPrefixOf (b :: bs) || go a bs

/-! ### Target resolution

The job well declarations (`job_data["wells"]`) form a Python dict,
modelled as an association list of `(well name, declared stage count)` pairs
in insertion order with pairwise-distinct keys (dict semantics); `dict.get`
is lookup of the (unique) exactly matching key. -/

/-- Exact lookup `job_data["wells"].get(w)`: the declared target of the exactly matching
well name, if any. -/
def exactTarget (wells : List (String × Int)) (w : String) : Option Int :=
  (wells.find? fun p => p.1 == w).map (·.2)

/-- KPI target resolution `total_stages = job_data["wells"].get(well, 60)` — the KPI editor
target resolution (`Seismos_KPI_v1.py` line 102): exact match or the
default `60`, with no fuzzy matching. -/
def targetKPI (wells : List (String × Int)) (w : String) : Int :=
  (exactTarget wells w).getD 60

/-- Fuzzy-match test `saved_name in well_name or well_name in saved_name` — the Viewer
fuzzy-match test for one declared well (`Seismos_Viewer_v1.py` line 70). -/
def fuzzyMatch (w : String) (p : String × Int) : Bool :=
  isSub p.1 w || isSub w p.1

/-- The Viewer target resolution (`Seismos_Viewer_v1.py` lines 65–75):
exact dict lookup; failing that, the first declared well (in dict insertion
order) whose name is a substring of the observed name or vice versa;
failing that, `0`. -/
def targetViewer (wells : List (String × Int)) (w : String) : Int :=
  match exactTarget wells w with
  | some t => t
  | none =>
    match wells.find? (fuzzyMatch w) with
    | some p => p.2
    | none => 0

/-! ### Pad-wide estimate -/

/-- The group keys of `kpi_df.groupby("Well Name")`: the distinct well
names, sorted (pandas sorts group keys). -/
def wellNames (kpi : List StageRecord) : List String :=
  sortStrings (kpi.map (·.wellName)).dedup

/-- The `pad_estimates` list and `pad_end = max(pad_estimates)` of
`Seismos_KPI_v1.py` lines 100–114: one estimate per group (groups are
non-empty, so `estEnd` is `some` on each), then the maximum; `none` when
there are no groups at all (where Python `max([])` raises). -/
def padEnd (wells : List (String × Int)) (kpi : List StageRecord) : Option ℚ :=
  listMax ((wellNames kpi).filterMap fun w => estEnd (targetKPI wells w) (wellRecords kpi w))

/-! ### Quality rate and SPP tables -/

/-- One quality observation (a document of the `quality` subcollection,
written by the checklist form of `Seismos_KPI_v1.py` lines 160–170).  The
three category fields are `Option String`: a missing field becomes `NaN`
in the DataFrame and is dropped by `value_counts`. -/
structure QualityRecord where
  well : String
  stage : Int
  pre_sand : Option String
  post_sand : Option String
  spp : Option String
  comments : String
deriving DecidableEq, Repr

/-- The non-missing values of one category column. -/
def observed (l : List (Option String)) : List String := l.filterMap id

/-- The multiplicity of `v` in a column — one entry of
`value_counts().to_dict()`, or the `0` default of `.get(cond, 0)`. -/
def countVal (l : List String) (v : String) : Nat :=
  (l.filter fun x => x == v).length

/-- The `pre_sand` column of `quality_df`, missing values dropped. -/
def preVals (qs : List QualityRecord) : List String := observed (qs.map (·.pre_sand))

/-- The `post_sand` column of `quality_df`, missing values dropped. -/
def postVals (qs : List QualityRecord) : List String := observed (qs.map (·.post_sand))

/-- The `spp` column of `quality_df`, missing values dropped. -/
def sppVals (qs : List QualityRecord) : List String := observed (qs.map (·.spp))

/-- Condition universe `rate_conditions = sorted(set(list(pre_counts.keys()) + list(post_counts.keys())))`
(`Seismos_Viewer_v1.py` line 97). -/
def rateConditions (qs : List QualityRecord) : List String :=
  sortStrings (preVals qs ++ postVals qs).dedup

/-- One row of `rate_df` (`Seismos_Viewer_v1.py` lines 99–103). -/
structure RateRow where
  condition : String
  pre : Nat
  post : Nat
  total : Nat
deriving DecidableEq, Repr

/-- The `rate_table` built in `Seismos_Viewer_v1.py` lines 98–104: one row
per condition, with the per-side counts (`.get(cond, 0)`) and their sum. -/
def rateTable (qs : List QualityRecord) : List RateRow :=
  (rateConditions qs).map fun c =>
    ⟨c, countVal (preVals qs) c, countVal (postVals qs) c,
      countVal (preVals qs) c + countVal (postVals qs) c⟩

/-- Grand total `total_rate = rate_df["Total"].sum()` (`Seismos_Viewer_v1.py` line 106). -/
def grandTotal (qs : List QualityRecord) : Nat :=
  ((rateTable qs).map (·.total)).sum

/-- The column `rate_df["Percent Total"] = rate_df["Total"] / total_rate * 100`
(`Seismos_Viewer_v1.py` line 107). -/
def ratePercents (qs : List QualityRecord) : List ℚ :=
  (rateTable qs).map fun r => (r.total : ℚ) / (grandTotal qs : ℚ) * 100

/-- The keys of `spp_counts = quality_df["spp"].value_counts().to_dict()`
(`Seismos_Viewer_v1.py` line 112): the distinct observed SPP values,
ordered by descending count (`value_counts` sorts by frequency). -/
def sppKeys (qs : List QualityRecord) : List String :=
  List.insertionSort (fun a b => countVal (sppVals qs) b ≤ countVal (sppVals qs) a)
    (sppVals qs).dedup

/-- One row of `spp_table` (`Seismos_Viewer_v1.py` lines 114–118). -/
structure SppRow where
  condition : String
  count : Nat
deriving DecidableEq, Repr

/-- The `spp_table` rows (`Seismos_Viewer_v1.py` lines 114–118), one per
distinct observed SPP value with its count. -/
def sppTable (qs : List QualityRecord) : List SppRow :=
  (sppKeys qs).map fun c => ⟨c, countVal (sppVals qs) c⟩

/-- Total SPP count `spp_total = sum(spp_counts.values())` (`Seismos_Viewer_v1.py` line 113). -/
def sppTotal (qs : List QualityRecord) : Nat :=
  ((sppTable qs).map (·.count)).sum

/-- The `(v/spp_total)*100` percentage of each `spp_table` row
(`Seismos_Viewer_v1.py` line 117). -/
def sppPercents (qs : List QualityRecord) : List ℚ :=
  (sppTable qs).map fun r => (r.count : ℚ) / (sppTotal qs : ℚ) * 100

/-! ### Idle-time view -/

/-- The sort-by-start relation used by `group.sort_values("Start time")`. -/
def byStart (a b : StageRecord) : Prop := a.startTime ≤ b.startTime

instance : DecidableRel byStart :=
  fun a b => inferInstanceAs (Decidable (a.startTime ≤ b.startTime))

instance : IsTotal StageRecord byStart :=
  ⟨fun a b => le_total a.startTime b.startTime⟩

instance : IsTrans StageRecord byStart :=
  ⟨fun _ _ _ h1 h2 => le_trans h1 h2⟩

/-- Sorting step `group = group.sort_values("Start time")` (`Seismos_KPI_v1.py` line 122). -/
def sortByStart (g : List StageRecord) : List StageRecord :=
  List.insertionSort byStart g

/-- The sorted `Start time` column of one well group. -/
def sortedStarts (g : List StageRecord) : List ℚ :=
  (sortByStart g).map (·.startTime)

/-- Column difference `col.diff().dt.total_seconds() / 3600`: `NaN` (here `none`) at index 0,
then the difference of consecutive entries, in hours. -/
def diffHours (l : List ℚ) : List (Option ℚ) :=
  match l with
  | [] => []
  | x :: xs => none :: List.zipWith (fun a b => some ((b - a) / 3600)) (x :: xs) xs

/-- Idle column `group["Idle (hrs)"] = group["Start time"].diff().dt.total_seconds() / 3600`
after sorting by start time (`Seismos_KPI_v1.py` lines 122–123). -/
def idleHours (g : List StageRecord) : List (Option ℚ) :=
  diffHours (sortedStarts g)

/-! ### Concrete scenario data -/

/-- Timestamp 2024-01-01T00:00:00 UTC as seconds since the epoch. -/
def jan1_2024 : ℚ := 1704067200

/-- The spec concrete scenario for well "A": stages 00:00–01:00 and
03:00–04:00 on 2024-01-01. -/
def scenarioA : List StageRecord :=
  [⟨"A", 1, jan1_2024, jan1_2024 + 3600⟩,
   ⟨"A", 2, jan1_2024 + 10800, jan1_2024 + 14400⟩]

/-- The spec concrete quality scenario for well "B": observed pre-sand
values "Good", "Good", "Bad" and a single observed post-sand value "Good"
(the other two post-sand entries are missing). -/
def scenarioB : List QualityRecord :=
  [⟨"B", 1, some "Good", some "Good", none, ""⟩,
   ⟨"B", 2, some "Good", none, none, ""⟩,
   ⟨"B", 3, some "Bad", none, none, ""⟩]

/-- Quality records with all three category fields present, for exercising
the SPP table alongside the rate table. -/
def scenarioC : List QualityRecord :=
  [⟨"B", 1, some "Good", some "Good", some "Good", ""⟩,
   ⟨"B", 2, some "Bad", some "Medium", some "Anomaly", ""⟩,
   ⟨"B", 3, some "Good", some "Bad", some "Good", ""⟩]

/-- Two stage records with simple start times, for the idle-time view. -/
def scenarioD : List StageRecord :=
  [⟨"W", 1, 0, 3600⟩, ⟨"W", 2, 7200, 10800⟩]

/-- A concrete permissive parser covering the timestamps used in the
counterexample rows; everything else is unparsable (`NaT`). -/
def parseDemo : String → Option ℚ
  | "2024-01-01 00:00" => some 1704067200
  | "2024-01-01 02:00" => some 1704074400
  | _ => none

end Seismos

namespace Seismos

/-! ### Helper lemmas -/

theorem le_foldl_max (xs : List ℚ) : ∀ a : ℚ, a ≤ xs.foldl max a := by
  induction xs with
  | nil => intro a; exact le_refl a
  | cons x xs ih =>
    intro a
    exact le_trans (le_max_left a x) (ih (max a x))

theorem foldl_max_le (xs : List ℚ) : ∀ (a x : ℚ), x ∈ xs → x ≤ xs.foldl max a := by
  induction xs with
  | nil => intro a x hx; cases hx
  | cons y ys ih =>
    intro a x hx
    rcases List.mem_cons.mp hx with rfl | hx
    · exact le_trans (le_max_right a x) (le_foldl_max ys (max a x))
    · exact ih (max a y) x hx

theorem foldl_max_mem (xs : List ℚ) : ∀ a : ℚ, xs.foldl max a = a ∨ xs.foldl max a ∈ xs := by
  induction xs with
  | nil => intro a; exact Or.inl rfl
  | cons x xs ih =>
    intro a
    have hc : (x :: xs).foldl max a = xs.foldl max (max a x) := rfl
    rcases ih (max a x) with h | h
    · rcases max_choice a x with hm | hm
      · exact Or.inl (by rw [hc, h, hm])
      · refine Or.inr ?_
        have hx : (x :: xs).foldl max a = x := by rw [hc, h, hm]
        rw [hx]
        exact List.mem_cons_self x xs
    · refine Or.inr ?_
      rw [hc]
      exact List.mem_cons_of_mem x h

theorem listMax_spec (l : List ℚ) (m : ℚ) (h : listMax l = some m) :
    m ∈ l ∧ ∀ x ∈ l, x ≤ m := by
  cases l with
  | nil => cases h
  | cons x xs =>
    have hm : m = xs.foldl max x := by
      simpa [listMax] using h.symm
    subst hm
    refine ⟨?_, ?_⟩
    · rcases foldl_max_mem xs x with h | h
      · rw [h]; exact List.mem_cons_self x xs
      · exact List.mem_cons_of_mem x h
    · intro y hy
      rcases List.mem_cons.mp hy with rfl | hy
      · exact le_foldl_max xs y
      · exact foldl_max_le xs x y hy

theorem normalize_eq (parse : String → Option ℚ) :
    ∀ rows, normalize parse rows = (rows.filter (bothParse parse)).map (toRecord parse)
  | [] => rfl
  | r :: rs => by
    have ih := normalize_eq parse rs
    cases hs : parse r.startStr with
    | none =>
      simp [normalize, List.filterMap_cons, List.filter_cons, bothParse, hs,
        ← ih, normalize]
    | some s =>
      cases he : parse r.endStr with
      | none =>
        simp [normalize, List.filterMap_cons, List.filter_cons, bothParse, hs, he,
          ← ih, normalize]
      | some e =>
        simp [normalize, List.filterMap_cons, List.filter_cons, bothParse, hs, he,
          ← ih, normalize, toRecord]

/-! ### Claim theorems -/

/-- C2 — Normalization drops exactly the rows with an unparsable (or
blank) start or end timestamp: the output is the in-order image of the
surviving rows (so no record derives from a failing row, no error is
raised, and input order is preserved), and it never has more records than
the input has rows. -/
theorem normalize_spec (parse : String → Option ℚ) (rows : List RawRow) :
    normalize parse rows = (rows.filter (bothParse parse)).map (toRecord parse) ∧
    (normalize parse rows).length ≤ rows.length :=
  ⟨normalize_eq parse rows, by
    rw [normalize_eq parse rows, List.length_map]
    exact List.length_filter_le _ _⟩

/-- C1 — For a well with at least one valid record, the estimated
completion time is `L + (target - stages_completed) * avg * 3600` seconds
where `L` is the greatest end time of the well records and `avg` is the
arithmetic mean of the per-stage durations in hours; on the spec concrete
scenario (target 3, stages 00:00–01:00 and 03:00–04:00 on 2024-01-01) the
estimate is 2024-01-01T05:00. -/
theorem estEnd_spec (target : Int) (g : List StageRecord) (h : g ≠ []) :
    (∃ L, estEnd target g =
        some (L + ((target : ℚ) - (g.length : ℚ)) * avgDuration g * 3600) ∧
      L ∈ g.map (·.endTime) ∧ ∀ x ∈ g.map (·.endTime), x ≤ L) ∧
    avgDuration g * (g.length : ℚ) = (g.map durationHours).sum ∧
    estEnd 3 scenarioA = some (jan1_2024 + 5 * 3600) := by
  refine ⟨?_, ?_, ?_⟩
  · cases g with
    | nil => exact absurd rfl h
    | cons r rs =>
      refine ⟨lastEnd (r :: rs), rfl, ?_⟩
      have hmax : listMax ((r :: rs).map (·.endTime)) =
          some ((rs.map (·.endTime)).foldl max r.endTime) := by
        simp [listMax]
      have hspec := listMax_spec _ _ hmax
      have hL : lastEnd (r :: rs) = (rs.map (·.endTime)).foldl max r.endTime := by
        simp only [lastEnd]
        rw [hmax]
        rfl
      rw [hL]
      exact hspec
  · have hlen : ((g.length : ℚ)) ≠ 0 := by
      have : 0 < g.length := List.length_pos.mpr h
      exact_mod_cast Nat.pos_iff_ne_zero.mp this
    simp only [avgDuration]
    exact div_mul_cancel₀ _ hlen
  · norm_num [estEnd, scenarioA, lastEnd, listMax, avgDuration, durationHours,
      jan1_2024, max_def]

/-- C3 counterexample — The claim fails on the KPI editor: for the
observed well "Bravo" with declared wells `{"Alpha": 10}` there is no exact
and no substring match, yet the target used by `Seismos_KPI_v1.py` line 102
is the default `60`, not `0`. -/
theorem target_default_counterexample :
    exactTarget [("Alpha", 10)] "Bravo" = none ∧
    fuzzyMatch "Bravo" ("Alpha", 10) = false ∧
    targetKPI [("Alpha", 10)] "Bravo" = 60 ∧ (60 : Int) ≠ 0 := by
  refine ⟨?_, ?_, ?_, ?_⟩ <;> decide

/-- C3 (amended) — In the Viewer, a well name with no exact match and no
substring fuzzy match resolves to the explicit unknown-target sentinel `0`
and no failure is raised; the KPI editor resolution, by contrast, performs
no fuzzy matching and defaults any name without an exact match to `60`. -/
theorem target_default_spec (wells : List (String × Int)) (w : String)
    (hex : exactTarget wells w = none)
    (hfz : ∀ p ∈ wells, fuzzyMatch w p = false) :
    targetViewer wells w = 0 ∧ targetKPI wells w = 60 := by
  have hfind : wells.find? (fuzzyMatch w) = none :=
    List.find?_eq_none.mpr fun p hp => by simp [hfz p hp]
  constructor
  · simp [targetViewer, hex, hfind]
  · simp [targetKPI, hex]

/-- Witness for `target_default_spec`. -/
theorem target_default_spec_witness :
    targetViewer [("Alpha", 10)] "Bravo" = 0 ∧
    targetKPI [("Alpha", 10)] "Bravo" = 60 :=
  target_default_spec [("Alpha", 10)] "Bravo" (by decide) (by decide)

/-- C4 — Viewer fuzzy resolution: when an observed well name has no
exact match in the declared targets, the first declared well — in the
targets insertion order — whose name is a substring of the observed name
or of which the observed name is a substring supplies the target count. -/
theorem target_fuzzy_spec (l₁ l₂ : List (String × Int)) (p : String × Int) (w : String)
    (hex : exactTarget (l₁ ++ p :: l₂) w = none)
    (h₁ : ∀ q ∈ l₁, fuzzyMatch w q = false)
    (hp : fuzzyMatch w p = true) :
    targetViewer (l₁ ++ p :: l₂) w = p.2 ∧
    (isSub p.1 w = true ∨ isSub w p.1 = true) := by
  have h1 : l₁.find? (fuzzyMatch w) = none :=
    List.find?_eq_none.mpr fun q hq => by simp [h₁ q hq]
  have hfind : (l₁ ++ p :: l₂).find? (fuzzyMatch w) = some p := by
    rw [List.find?_append, h1]
    simp [List.find?_cons, hp]
  refine ⟨by simp [targetViewer, hex, hfind], ?_⟩
  simpa [fuzzyMatch] using hp

/-- Witness for `target_fuzzy_spec`: "A-1H" resolves to the declared
"A-1H (long name)" with its count 45. -/
theorem target_fuzzy_spec_witness :
    targetViewer [("Xray", 5), ("A-1H (long name)", 45)] "A-1H" = 45 ∧
    (isSub "A-1H (long name)" "A-1H" = true ∨ isSub "A-1H" "A-1H (long name)" = true) :=
  target_fuzzy_spec [("Xray", 5)] [] ("A-1H (long name)", 45) "A-1H"
    (by decide) (by decide) (by decide)

theorem listMax_ge (l : List ℚ) (x : ℚ) (hx : x ∈ l) :
    ∃ m, listMax l = some m ∧ x ≤ m := by
  cases l with
  | nil => cases hx
  | cons y ys => exact ⟨ys.foldl max y, rfl, (listMax_spec (y :: ys) _ rfl).2 x hx⟩

/-- C5 — The pad-wide estimate is the maximum of the per-well
estimates: whenever a well own estimate is defined (it has at least one
valid record), the pad estimate is defined and no earlier than it; with no
valid records at all the pad estimate is undefined. -/
theorem padEnd_spec (wells : List (String × Int)) (kpi : List StageRecord)
    (w : String) (e : ℚ)
    (h : estEnd (targetKPI wells w) (wellRecords kpi w) = some e) :
    (∃ p, padEnd wells kpi = some p ∧ e ≤ p) ∧
    padEnd wells [] = none := by
  refine ⟨?_, rfl⟩
  have hne : wellRecords kpi w ≠ [] := by
    intro hnil
    rw [hnil] at h
    cases h
  have hwmem : w ∈ wellNames kpi := by
    obtain ⟨r, hr⟩ := List.exists_mem_of_ne_nil _ hne
    have hrk := List.mem_filter.mp hr
    have hw : r.wellName = w := by simpa using hrk.2
    have : w ∈ kpi.map (·.wellName) := List.mem_map.mpr ⟨r, hrk.1, hw⟩
    exact ((List.perm_insertionSort strLeP _).mem_iff).mpr (List.mem_dedup.mpr this)
  have hemem : e ∈ (wellNames kpi).filterMap
      (fun w => estEnd (targetKPI wells w) (wellRecords kpi w)) :=
    List.mem_filterMap.mpr ⟨w, hwmem, h⟩
  obtain ⟨m, hm, hle⟩ := listMax_ge _ e hemem
  exact ⟨m, by rw [padEnd, hm], hle⟩

/-- Witness for `padEnd_spec` on the concrete scenario for well "A". -/
theorem padEnd_spec_witness :
    (∃ p, padEnd [("A", 3)] scenarioA = some p ∧ jan1_2024 + 5 * 3600 ≤ p) ∧
    padEnd [("A", 3)] [] = none :=
  padEnd_spec [("A", 3)] scenarioA "A" (jan1_2024 + 5 * 3600) (by
    have hg : wellRecords scenarioA "A" = scenarioA := by
      simp [wellRecords, scenarioA]
    have ht : targetKPI [("A", 3)] "A" = 3 := by decide
    rw [hg, ht]
    norm_num [estEnd, scenarioA, lastEnd, listMax, avgDuration, durationHours,
      jan1_2024, max_def])

theorem ratePercents_scenarioB : ratePercents scenarioB = [25, 75] := by
  have ht : rateTable scenarioB = [⟨"Bad", 1, 0, 1⟩, ⟨"Good", 2, 1, 3⟩] := by decide
  have hg : grandTotal scenarioB = 4 := by decide
  simp only [ratePercents, ht, hg]
  norm_num

/-- C6 counterexample — On the spec concrete scenario (pre-sand
"Good","Good","Bad"; post-sand "Good") the grand total is 4, so the code
computes percentages 25% for "Bad" and 75% for "Good" — not the 33.33% and
66.67% the claim states. -/
theorem rateTable_counterexample :
    ratePercents scenarioB = [25, 75] ∧
    (75 : ℚ) ≠ 200 / 3 ∧ (75 : ℚ) ≠ 6667 / 100 ∧
    (25 : ℚ) ≠ 100 / 3 ∧ (25 : ℚ) ≠ 3333 / 100 := by
  refine ⟨ratePercents_scenarioB, by norm_num, by norm_num, by norm_num, by norm_num⟩

/-- C6 (amended) — The RateTable has exactly one row per category value
in the union of distinct observed pre-sand and post-sand values, sorted
lexicographically; a value missing on one side counts 0 there; each row
total is `pre + post` and its percentage is `total / grand total * 100`;
on the concrete scenario this yields rows Bad(1,0,1) and Good(2,1,3) with
percentages 25% and 75% (not 33.33% and 66.67%). -/
theorem rateTable_spec (qs : List QualityRecord) :
    (rateTable qs).map (·.condition) = sortStrings (preVals qs ++ postVals qs).dedup ∧
    List.Sorted strLeP ((rateTable qs).map (·.condition)) ∧
    (∀ row ∈ rateTable qs,
      row.pre = countVal (preVals qs) row.condition ∧
      row.post = countVal (postVals qs) row.condition ∧
      row.total = row.pre + row.post) ∧
    ratePercents qs = (rateTable qs).map (fun r => (r.total : ℚ) / (grandTotal qs : ℚ) * 100) ∧
    rateTable scenarioB = [⟨"Bad", 1, 0, 1⟩, ⟨"Good", 2, 1, 3⟩] ∧
    ratePercents scenarioB = [25, 75] := by
  have hmap : (rateTable qs).map (·.condition) = rateConditions qs := by
    have key : ∀ l : List String,
        (l.map fun c => (⟨c, countVal (preVals qs) c, countVal (postVals qs) c,
          countVal (preVals qs) c + countVal (postVals qs) c⟩ : RateRow)).map (·.condition)
          = l := by
      intro l
      induction l with
      | nil => rfl
      | cons c cs ih => simp [ih]
    exact key (rateConditions qs)
  refine ⟨by rw [hmap]; rfl, ?_, ?_, rfl, by decide, ratePercents_scenarioB⟩
  · rw [hmap]
    exact List.sorted_insertionSort strLeP _
  · intro row hrow
    obtain ⟨c, _, rfl⟩ := List.mem_map.mp hrow
    exact ⟨rfl, rfl, rfl⟩

/-- Witness for `rateTable_spec`, instantiating the per-row clause at the
"Good" row of the concrete scenario. -/
theorem rateTable_spec_witness :
    (⟨"Good", 2, 1, 3⟩ : RateRow) ∈ rateTable scenarioB ∧
    ((⟨"Good", 2, 1, 3⟩ : RateRow).pre = countVal (preVals scenarioB) "Good" ∧
     (⟨"Good", 2, 1, 3⟩ : RateRow).post = countVal (postVals scenarioB) "Good" ∧
     (⟨"Good", 2, 1, 3⟩ : RateRow).total = 2 + 1) :=
  ⟨by decide, (rateTable_spec scenarioB).2.2.1 ⟨"Good", 2, 1, 3⟩ (by decide)⟩

theorem sum_map_div_mul (l : List ℚ) (c : ℚ) :
    (l.map fun x => x / c * 100).sum = l.sum / c * 100 := by
  induction l with
  | nil => simp
  | cons x xs ih =>
    simp only [List.map_cons, List.sum_cons, ih]
    ring

theorem cast_sum_totals (qs : List QualityRecord) :
    ((rateTable qs).map fun r => (r.total : ℚ)).sum = (grandTotal qs : ℚ) := by
  simp only [grandTotal]
  rw [Nat.cast_list_sum, List.map_map]
  rfl

theorem cast_sum_counts (qs : List QualityRecord) :
    ((sppTable qs).map fun r => (r.count : ℚ)).sum = (sppTotal qs : ℚ) := by
  simp only [sppTotal]
  rw [Nat.cast_list_sum, List.map_map]
  rfl

/-- C7 — On a non-empty RateTable (nonzero grand total) the percentages
sum to exactly 100; each SPP row percentage is its count over the sum of
all SPP counts times 100, and those also sum to 100 when that sum is
nonzero. -/
theorem percent_sum_spec (qs : List QualityRecord)
    (h1 : grandTotal qs ≠ 0) (h2 : sppTotal qs ≠ 0) :
    (ratePercents qs).sum = 100 ∧
    sppPercents qs = (sppTable qs).map (fun r => (r.count : ℚ) / (sppTotal qs : ℚ) * 100) ∧
    (sppPercents qs).sum = 100 := by
  have hG : ((grandTotal qs : ℕ) : ℚ) ≠ 0 := Nat.cast_ne_zero.mpr h1
  have hS : ((sppTotal qs : ℕ) : ℚ) ≠ 0 := Nat.cast_ne_zero.mpr h2
  refine ⟨?_, rfl, ?_⟩
  · have hmm : ratePercents qs =
        (((rateTable qs).map fun r => (r.total : ℚ)).map
          fun x => x / (grandTotal qs : ℚ) * 100) := by
      simp only [ratePercents, List.map_map]
      rfl
    rw [hmm, sum_map_div_mul, cast_sum_totals, div_self hG, one_mul]
  · have hmm : sppPercents qs =
        (((sppTable qs).map fun r => (r.count : ℚ)).map
          fun x => x / (sppTotal qs : ℚ) * 100) := by
      simp only [sppPercents, List.map_map]
      rfl
    rw [hmm, sum_map_div_mul, cast_sum_counts, div_self hS, one_mul]

/-- Witness for `percent_sum_spec`. -/
theorem percent_sum_spec_witness :
    grandTotal scenarioC ≠ 0 ∧ sppTotal scenarioC ≠ 0 ∧
    (ratePercents scenarioC).sum = 100 ∧ (sppPercents scenarioC).sum = 100 :=
  ⟨by decide, by decide,
    (percent_sum_spec scenarioC (by decide) (by decide)).1,
    (percent_sum_spec scenarioC (by decide) (by decide)).2.2⟩

theorem countVal_pos (l : List String) (c : String) (hc : c ∈ l) : 0 < countVal l c := by
  have hmem : c ∈ l.filter (fun x => x == c) := List.mem_filter.mpr ⟨hc, by simp⟩
  exact List.length_pos.mpr (List.ne_nil_of_mem hmem)

/-- C8 — The quality summarizer is division-fault free: on an empty
input both tables (and both percentage columns) are empty, so no division
is performed, and whenever a percentage row exists its denominator (the
grand total, resp. the SPP total) is strictly positive. -/
theorem summarize_zero_guard (qs : List QualityRecord) :
    rateTable [] = [] ∧ sppTable [] = [] ∧
    ratePercents [] = [] ∧ sppPercents [] = [] ∧
    (rateTable qs ≠ [] → 0 < grandTotal qs) ∧
    (sppTable qs ≠ [] → 0 < sppTotal qs) := by
  refine ⟨rfl, rfl, rfl, rfl, ?_, ?_⟩
  · intro hne
    obtain ⟨row, hrow⟩ := List.exists_mem_of_ne_nil _ hne
    obtain ⟨c, hc, rfl⟩ := List.mem_map.mp hrow
    have hc' : c ∈ (preVals qs ++ postVals qs).dedup :=
      ((List.perm_insertionSort strLeP _).mem_iff).mp hc
    have hcv : c ∈ preVals qs ++ postVals qs := List.mem_dedup.mp hc'
    have hpos : 0 < countVal (preVals qs) c + countVal (postVals qs) c := by
      rcases List.mem_append.mp hcv with h | h
      · exact Nat.lt_of_lt_of_le (countVal_pos _ _ h) (Nat.le_add_right _ _)
      · exact Nat.lt_of_lt_of_le (countVal_pos _ _ h) (Nat.le_add_left _ _)
    have hle : countVal (preVals qs) c + countVal (postVals qs) c ≤ grandTotal qs :=
      List.single_le_sum (fun x _ => Nat.zero_le x) _
        (List.mem_map.mpr ⟨_, hrow, rfl⟩)
    exact Nat.lt_of_lt_of_le hpos hle
  · intro hne
    obtain ⟨row, hrow⟩ := List.exists_mem_of_ne_nil _ hne
    obtain ⟨c, hc, rfl⟩ := List.mem_map.mp hrow
    have hc' : c ∈ (sppVals qs).dedup :=
      ((List.perm_insertionSort _ _).mem_iff).mp hc
    have hcv : c ∈ sppVals qs := List.mem_dedup.mp hc'
    have hle : countVal (sppVals qs) c ≤ sppTotal qs :=
      List.single_le_sum (fun x _ => Nat.zero_le x) _
        (List.mem_map.mpr ⟨_, hrow, rfl⟩)
    exact Nat.lt_of_lt_of_le (countVal_pos _ _ hcv) hle

/-- Witness for `summarize_zero_guard`. -/
theorem summarize_zero_guard_witness :
    rateTable scenarioC ≠ [] ∧ 0 < grandTotal scenarioC ∧
    sppTable scenarioC ≠ [] ∧ 0 < sppTotal scenarioC :=
  ⟨by decide, (summarize_zero_guard scenarioC).2.2.2.2.1 (by decide),
   by decide, (summarize_zero_guard scenarioC).2.2.2.2.2 (by decide)⟩

/-- C9 — In the idle-time view, the well records are sorted by start
time; the idle value at sorted position `i+1` is the difference of the
starts at positions `i+1` and `i` in hours (between consecutive stage
starts, not end-to-start), and the first record has no idle value. -/
theorem idle_spec (g : List StageRecord) (i : Nat) (a b : ℚ)
    (ha : (sortedStarts g)[i]? = some a) (hb : (sortedStarts g)[i+1]? = some b) :
    (idleHours g)[i+1]? = some (some ((b - a) / 3600)) ∧
    (idleHours g)[0]? = some none ∧
    List.Sorted byStart (sortByStart g) := by
  have key : ∀ (l : List ℚ) (j : Nat) (x y : ℚ), l[j]? = some x → l[j+1]? = some y →
      (diffHours l)[j+1]? = some (some ((y - x) / 3600)) ∧ (diffHours l)[0]? = some none := by
    intro l j x y hx hy
    cases l with
    | nil => simp at hx
    | cons z zs =>
      have hy' : zs[j]? = some y := by simpa using hy
      constructor
      · show (none :: List.zipWith (fun p q => some ((q - p) / 3600)) (z :: zs) zs)[j+1]? =
          some (some ((y - x) / 3600))
        rw [List.getElem?_cons_succ]
        simp [List.getElem?_zipWith, hx, hy']
      · simp [diffHours]
  obtain ⟨k1, k2⟩ := key (sortedStarts g) i a b ha hb
  exact ⟨k1, k2, List.sorted_insertionSort byStart g⟩

/-- Witness for `idle_spec` on two concrete records. -/
theorem idle_spec_witness :
    (idleHours scenarioD)[0+1]? = some (some (((7200 : ℚ) - 0) / 3600)) ∧
    (idleHours scenarioD)[0]? = some none ∧
    List.Sorted byStart (sortByStart scenarioD) :=
  idle_spec scenarioD 0 0 7200
    (by norm_num [sortedStarts, sortByStart, scenarioD, List.insertionSort,
      List.orderedInsert, byStart])
    (by norm_num [sortedStarts, sortByStart, scenarioD, List.insertionSort,
      List.orderedInsert, byStart])

/-- C10 counterexample — A row whose timestamps both parse but with the
end before the start survives normalization, violating the claim that every
surviving record has `end_time ≥ start_time`: its duration is negative. -/
theorem duration_counterexample :
    normalize parseDemo [⟨"W", 1, "2024-01-01 02:00", "2024-01-01 00:00"⟩] =
      [⟨"W", 1, 1704074400, 1704067200⟩] ∧
    ¬ ((1704067200 : ℚ) ≥ (1704074400 : ℚ)) ∧
    durationHours ⟨"W", 1, 1704074400, 1704067200⟩ < 0 := by
  refine ⟨rfl, by norm_num, by norm_num [durationHours]⟩

/-- C10 (amended) — Normalization drops rows exactly when a timestamp
fails to parse; it performs no `end_time ≥ start_time` check, so a row with
both timestamps parsed but end before start yields a surviving record with
negative `duration_hours`. -/
theorem duration_sign_spec (parse : String → Option ℚ) (rows : List RawRow) (r : RawRow)
    (hr : r ∈ rows) (s e : ℚ)
    (hs : parse r.startStr = some s) (he : parse r.endStr = some e) (hlt : e < s) :
    (⟨r.wellName, r.stage, s, e⟩ : StageRecord) ∈ normalize parse rows ∧
    durationHours ⟨r.wellName, r.stage, s, e⟩ < 0 := by
  constructor
  · exact List.mem_filterMap.mpr ⟨r, hr, by rw [hs, he]⟩
  · have hneg : e - s < 0 := sub_neg.mpr hlt
    exact div_neg_of_neg_of_pos hneg (by norm_num)

/-- Witness for `duration_sign_spec` at the concrete reversed-times row. -/
theorem duration_sign_spec_witness :
    (⟨"W", 1, 1704074400, 1704067200⟩ : StageRecord) ∈
      normalize parseDemo [⟨"W", 1, "2024-01-01 02:00", "2024-01-01 00:00"⟩] ∧
    durationHours ⟨"W", 1, 1704074400, 1704067200⟩ < 0 :=
  duration_sign_spec parseDemo [⟨"W", 1, "2024-01-01 02:00", "2024-01-01 00:00"⟩]
    ⟨"W", 1, "2024-01-01 02:00", "2024-01-01 00:00"⟩ (by simp)
    1704074400 1704067200 rfl rfl (by norm_num)

/-- Witness for `estEnd_spec` at the concrete scenario. -/
theorem estEnd_spec_witness :
    (∃ L, estEnd 3 scenarioA =
        some (L + ((3 : ℚ) - (scenarioA.length : ℚ)) * avgDuration scenarioA * 3600) ∧
      L ∈ scenarioA.map (·.endTime) ∧ ∀ x ∈ scenarioA.map (·.endTime), x ≤ L) ∧
    avgDuration scenarioA * (scenarioA.length : ℚ) = (scenarioA.map durationHours).sum ∧
    estEnd 3 scenarioA = some (jan1_2024 + 5 * 3600) :=
  estEnd_spec 3 scenarioA (by decide)

end Seismos
